import Mathlib

/-!
Verification development for the manga-reader repository (src/src/main.rs).

The natural-sort comparator and the navigation state machine are embedded
shallowly.  Rust `char`s are Lean `Char`s (Unicode scalar values); Rust's
`char::to_lowercase` is modelled by ASCII case folding (`foldCode`), which
agrees with Rust on all ASCII names — the only property the proofs rely on
beyond ASCII is that folding never turns a non-digit into a digit, which
holds for full Unicode as well.  External collaborators (filesystem walk,
zip listing, file removal) are an explicit `Env` record, per the spec's
"external collaborators" boundary; image decoding is modelled as succeeding,
with the displayed image recorded as the entry that was loaded.
-/

/-- Rust `u8::is_ascii_digit` on a Unicode scalar value (code 48..57). -/
def isDig (n : Nat) : Bool := 48 ≤ n && n ≤ 57

/-- ASCII case folding on a scalar value: `A`..`Z` (65..90) map to
`a`..`z` (97..122), everything else is fixed.  Models the effect of
Rust's `to_lowercase()` on the characters the claims concern. -/
def foldCode (n : Nat) : Nat := if 65 ≤ n && n ≤ 90 then n + 32 else n

/-- Numeric value of a digit string, as computed left to right
(`main.rs` line 88: `a_num_str.parse()` accumulates base-10 digits). -/
def digitVal (cs : List Char) : Nat :=
  cs.foldl (fun a c => 10 * a + (c.toNat - 48)) 0

/-- Rust `str::parse::<u64>().unwrap_or(0)` on an all-digit string
(`main.rs` lines 88-89): the numeric value when it fits in a `u64`,
and the fallback `0` when parsing overflows. -/
def parseU64 (cs : List Char) : Nat :=
  if digitVal cs < 2 ^ 64 then digitVal cs else 0

/-- The loop of `natural_sort` (`main.rs` lines 56-110), with explicit fuel
so that the kernel can evaluate it; each iteration consumes at least one
character from each side, so fuel `|a| + |b| + 1` is always sufficient
(`natSortCmp` below supplies it, and `natSortGo_eq_keyCmp` shows the result
is fuel-independent).  If both current characters are ASCII digits, the
maximal digit runs are consumed and compared via `parseU64`; otherwise the
two characters are compared case-folded. -/
def natSortGo : Nat → List Char → List Char → Ordering
  | 0, _, _ => .eq
  | _ + 1, [], [] => .eq
  | _ + 1, [], _ :: _ => .lt
  | _ + 1, _ :: _, [] => .gt
  | fuel + 1, a :: as, b :: bs =>
    if isDig a.toNat && isDig b.toNat then
      let aRun := (a :: as).takeWhile fun c => isDig c.toNat
      let aRest := (a :: as).dropWhile fun c => isDig c.toNat
      let bRun := (b :: bs).takeWhile fun c => isDig c.toNat
      let bRest := (b :: bs).dropWhile fun c => isDig c.toNat
      match compare (parseU64 aRun) (parseU64 bRun) with
      | .eq => natSortGo fuel aRest bRest
      | ord => ord
    else
      match compare (foldCode a.toNat) (foldCode b.toNat) with
      | .eq => natSortGo fuel as bs
      | ord => ord

/-- `natural_sort` on character lists. -/
def natSortCmp (a b : List Char) : Ordering :=
  natSortGo (a.length + b.length + 1) a b

/-- `natural_sort` (`main.rs` lines 56-110) on strings. -/
def natural_sort (a b : String) : Ordering := natSortCmp a.data b.data

/-! ## Canonical keys for the comparator (proof infrastructure)

`natural_sort` is shown equal to a lexicographic comparison of token
lists, which yields its total-preorder properties. -/

/-- A token of a name: a maximal digit run (by its `parseU64` value) or a
single case-folded non-digit scalar value. -/
inductive NTok where
  | num : Nat → NTok
  | chr : Nat → NTok

/-- Tokenize a name as the comparator scans it. -/
def tokenize : List Char → List NTok
  | [] => []
  | c :: cs =>
    if h : isDig c.toNat then
      .num (parseU64 ((c :: cs).takeWhile fun d => isDig d.toNat)) ::
        tokenize ((c :: cs).dropWhile fun d => isDig d.toNat)
    else
      .chr (foldCode c.toNat) :: tokenize cs
termination_by l => l.length
decreasing_by
  · simp only [List.dropWhile_cons, h, if_true]
    exact Nat.lt_succ_of_le (by
      induction cs with
      | nil => simp
      | cons x xs ih =>
        rw [List.dropWhile_cons]
        split
        · exact Nat.le_succ_of_le ih
        · simp)
  · simp

/-- Rank a token inside a linearly ordered key: characters below `'0'`,
then digit runs, then characters above `'9'`. -/
def tokKey : NTok → Nat × Nat
  | .num n => (1, n)
  | .chr c => if c < 48 then (0, c) else (2, c)

/-- Lexicographic comparison of rank pairs. -/
def pairCmp (x y : Nat × Nat) : Ordering :=
  match compare x.1 y.1 with
  | .eq => compare x.2 y.2
  | ord => ord

/-- Lexicographic comparison of token lists via `tokKey`, shorter list
first. -/
def keyCmp : List NTok → List NTok → Ordering
  | [], [] => .eq
  | [], _ :: _ => .lt
  | _ :: _, [] => .gt
  | t :: ts, u :: us =>
    match pairCmp (tokKey t) (tokKey u) with
    | .eq => keyCmp ts us
    | ord => ord

/-! ## Paths and name-derived predicates -/

/-- A path, as a list of components.  Directory-walk paths and in-archive
entry names (which use `/` separators, per the zip format) both live here;
only the final component (`fileName`) and the joined display form
(`lossy`, modelling `to_string_lossy`) are ever inspected. -/
structure RPath where
  components : List String
deriving DecidableEq

/-- Rust `Path::file_name().unwrap_or("")`: the final component. -/
def RPath.fileName (p : RPath) : String := p.components.getLast?.getD ""

/-- Rust `Path::to_string_lossy()` for entry paths: components joined
with the separator they were split on. -/
def RPath.lossy (p : RPath) : String := String.intercalate "/" p.components

/-- Rust `Path::parent()`: drop the final component; `none` on the empty
path. -/
def RPath.parent (p : RPath) : Option RPath :=
  match p.components with
  | [] => none
  | _ :: _ => some ⟨p.components.dropLast⟩

/-- Split a zip entry name on `/` into path components, modelling
`PathBuf::from(name)` for names stored in an archive. -/
def splitSlash : List Char → List (List Char)
  | [] => [[]]
  | c :: rest =>
    match splitSlash rest with
    | [] => [[]]
    | g :: gs => if c = '/' then [] :: g :: gs else (c :: g) :: gs

/-- A zip entry name as an `RPath`. -/
def pathOfEntryName (s : String) : RPath :=
  ⟨(splitSlash s.data).map fun cs => ⟨cs⟩⟩

/-- The characters after the last `.` of a name, if any. -/
def afterLastDot : List Char → Option (List Char)
  | [] => none
  | c :: rest =>
    match afterLastDot rest with
    | some e => some e
    | none => if c = '.' then some rest else none

/-- Rust `Path::extension()` on a file name: the part after the last dot,
`none` when there is no dot or the only dot is the leading character
(hidden names like `.gitignore` have no extension). -/
def extOf (name : String) : Option String :=
  match name.data with
  | [] => none
  | _ :: rest =>
    match afterLastDot rest with
    | some e => some ⟨e⟩
    | none => none

/-- The ASCII-lowered scalar values of a string, modelling
`to_string_lossy().to_lowercase()` where it is compared against ASCII
literals. -/
def lowerCodes (s : String) : List Nat := s.data.map fun c => foldCode c.toNat

/-- The extension filter of `list_image_files_in_directory` and `load_cbz`
(`main.rs` lines 399-405, 438-443): lowered extension is one of the five
recognized raster-image extensions. -/
def isImageName (p : RPath) : Bool :=
  match extOf p.fileName with
  | some e =>
    (["jpg", "jpeg", "png", "webp", "gif"].map lowerCodes).contains (lowerCodes e)
  | none => false

/-- `MangaReader::is_archive_file` (`main.rs` lines 165-172). -/
def is_archive_file (p : RPath) : Bool :=
  match extOf p.fileName with
  | some e => lowerCodes e = lowerCodes "cbz" || lowerCodes e = lowerCodes "zip"
  | none => false

/-- `natural_sort_paths` (`main.rs` lines 43-54): compare the bare file
names of two paths. -/
def natural_sort_paths (a b : RPath) : Ordering :=
  natural_sort a.fileName b.fileName

/-- The comparator `load_cbz` actually sorts with (`main.rs` lines
446-450): `natural_sort` applied to the `to_string_lossy()` of the whole
stored entry path, not to the bare file name. -/
def cmpFull (a b : RPath) : Ordering := natural_sort a.lossy b.lossy

/-! ## Stable sorting

Rust `slice::sort_by` is a stable sort; any stable sort produces the same
output, so it is modelled by a stable insertion sort: each element is
inserted after all earlier elements it does not compare strictly below. -/

/-- Insert `x` into `l`, keeping `x` after every element it does not
compare strictly less than. -/
def insertBy (cmp : α → α → Ordering) (x : α) : List α → List α
  | [] => [x]
  | y :: ys => if cmp x y = .lt then x :: y :: ys else y :: insertBy cmp x ys

/-- Stable sort by a comparator (models Rust `sort_by`). -/
def sortBy (cmp : α → α → Ordering) (l : List α) : List α :=
  l.foldl (fun acc x => insertBy cmp x acc) []

/-! ## External collaborators and program state -/

/-- One result of the `WalkDir` iteration: a path together with the
`is_file` answer and the Windows attribute bits consulted at
`main.rs` lines 385-397. -/
structure DirEntry where
  path : RPath
  isFile : Bool
  attributes : Nat

/-- The external collaborators: directory walk, zip listing, and
filesystem removal (success/failure). -/
structure Env where
  isDir : RPath → Bool
  dirEntries : RPath → List DirEntry
  archiveEntries : RPath → List String
  removeOk : RPath → Bool

/-- The fields of `MangaReader` (`main.rs` lines 16-40) the specified core
touches.  The displayed texture is modelled by the path of the entry that
was decoded; pure UI fields (drag state, fullscreen, auto-fit,
the thumbnail cache) are omitted.  Zoom/pan are rationals since the
modelled operations only assign literals to them; status durations
likewise. -/
structure RState where
  current_image : Option RPath
  current_path : Option RPath
  files_in_folder : List RPath
  current_index : Nat
  zoom : ℚ
  offset_x : ℚ
  offset_y : ℚ
  status_message : Option (String × ℚ)
  archive_files : List RPath
  current_archive_index : Nat
  show_last_image_alert : Bool
  is_in_archive : Bool
  show_delete_confirmation : Bool
  pending_delete_path : Option RPath

/-- Fallback path for (in-range) list indexing. -/
def dfltPath : RPath := ⟨[]⟩

/-- `MangaReader::set_status` (`main.rs` lines 161-163). -/
def set_status (msg : String) (dur : ℚ) (s : RState) : RState :=
  { s with status_message := some (msg, dur) }

/-- The collection produced by `list_image_files_in_directory`
(`main.rs` lines 369-414): files of the walk, minus hidden/system
attributes, with a recognized image extension, sorted by
`natural_sort_paths`. -/
def dirImages (env : Env) (dir : RPath) : List RPath :=
  sortBy natural_sort_paths
    (((env.dirEntries dir).filter fun e =>
        e.isFile && !(e.attributes &&& 2 ≠ 0 || e.attributes &&& 4 ≠ 0)
          && isImageName e.path).map fun e => e.path)

/-- The archive chain produced by `list_archive_files_in_directory`
(`main.rs` lines 174-191): files of the walk with a `cbz`/`zip`
extension, sorted by `natural_sort_paths`. -/
def dirArchives (env : Env) (dir : RPath) : List RPath :=
  sortBy natural_sort_paths
    (((env.dirEntries dir).filter fun e =>
        e.isFile && is_archive_file e.path).map fun e => e.path)

/-- The collection produced by `load_cbz` (`main.rs` lines 433-450):
image-named members of the archive, sorted by `natural_sort` of the full
stored path string (`cmpFull`). -/
def cbzList (env : Env) (p : RPath) : List RPath :=
  sortBy cmpFull
    (((env.archiveEntries p).map pathOfEntryName).filter isImageName)

/-- `MangaReader::load_image` (`main.rs` lines 416-426); decoding is
modelled as succeeding, the displayed image becomes the given path. -/
def load_image (p : RPath) (s : RState) : RState :=
  { s with current_image := some p }

/-- `MangaReader::load_cbz_image` (`main.rs` lines 467-495); the displayed
image becomes the given in-archive entry. -/
def load_cbz_image (entry : RPath) (s : RState) : RState :=
  { s with current_image := some entry }

/-- `MangaReader::load_cbz` (`main.rs` lines 428-465): replace the
collection with the archive's sorted image list; if non-empty, reset the
cursor to 0 and load the first entry. -/
def load_cbz (env : Env) (p : RPath) (s : RState) : RState :=
  let files := cbzList env p
  let s := { s with files_in_folder := files }
  if files.isEmpty then
    set_status "No images found in archive" 3 s
  else
    let s := { s with current_index := 0 }
    let s := load_cbz_image (files.getD 0 dfltPath) s
    set_status ("Loaded archive with " ++ toString files.length ++ " images") 3 s

/-- `MangaReader::open_file` (`main.rs` lines 305-367). -/
def open_file (env : Env) (p : RPath) (s : RState) : RState :=
  let s := { s with
    current_path := some p, zoom := 1, offset_x := 0, offset_y := 0,
    show_last_image_alert := false }
  if env.isDir p then
    let s := { s with is_in_archive := false, files_in_folder := dirImages env p }
    if s.files_in_folder.isEmpty then
      set_status ("No images found in directory: " ++ p.lossy) 3 s
    else
      let s := { s with current_index := 0 }
      let s := load_image (s.files_in_folder.getD 0 dfltPath) s
      set_status ("Opened directory: " ++ p.lossy) 3 s
  else if is_archive_file p then
    let s := { s with is_in_archive := true }
    let s :=
      match p.parent with
      | some parent =>
        let chain := dirArchives env parent
        { s with archive_files := chain,
                 current_archive_index := (chain.findIdx? (fun q => q = p)).getD 0 }
      | none => s
    let s := load_cbz env p s
    set_status ("Opened archive: " ++ p.lossy) 3 s
  else
    let s := { s with is_in_archive := false }
    let s := load_image p s
    let s := set_status ("Opened image: " ++ p.lossy) 3 s
    match p.parent with
    | some parent =>
      let files := dirImages env parent
      { s with files_in_folder := files,
               current_index := (files.findIdx? (fun q => q = p)).getD 0 }
    | none => s

/-- `MangaReader::load_next_archive` (`main.rs` lines 523-549); the `Bool`
is the function's `Ok(true/false)` result. -/
def load_next_archive (env : Env) (s : RState) : RState × Bool :=
  if s.archive_files.isEmpty then (s, false)
  else
    let next_index := s.current_archive_index + 1
    if next_index < s.archive_files.length then
      let next_archive := s.archive_files.getD next_index dfltPath
      let s := { s with current_archive_index := next_index,
                        current_path := some next_archive }
      let s := load_cbz env next_archive s
      (set_status ("Loaded next archive: " ++ next_archive.fileName) 3 s, true)
    else
      (set_status "No more archives to load" 3 s, false)

/-- `MangaReader::next_image` (`main.rs` lines 594-630). -/
def next_image (env : Env) (s : RState) : RState :=
  if s.files_in_folder.isEmpty then s
  else if s.is_in_archive && s.current_index = s.files_in_folder.length - 1 then
    if s.show_last_image_alert then
      (load_next_archive env { s with show_last_image_alert := false }).1
    else
      set_status "Reaching last image. Scroll again to load next archive." 3
        { s with show_last_image_alert := true }
  else
    let s := { s with show_last_image_alert := false,
                      current_index := (s.current_index + 1) % s.files_in_folder.length }
    let p := s.files_in_folder.getD s.current_index dfltPath
    match s.current_path with
    | some _ => if s.is_in_archive then load_cbz_image p s else load_image p s
    | none => s

/-- `MangaReader::previous_image` (`main.rs` lines 632-657). -/
def previous_image (_env : Env) (s : RState) : RState :=
  if s.files_in_folder.isEmpty then s
  else
    let s := { s with show_last_image_alert := false,
                      current_index :=
                        if s.current_index = 0 then s.files_in_folder.length - 1
                        else s.current_index - 1 }
    let p := s.files_in_folder.getD s.current_index dfltPath
    match s.current_path with
    | some _ => if s.is_in_archive then load_cbz_image p s else load_image p s
    | none => s

/-- The `Home` key handler of `handle_keyboard_input`
(`main.rs` lines 724-738): jump to the first entry. -/
def jump_first (_env : Env) (s : RState) : RState :=
  if s.files_in_folder.isEmpty then s
  else
    let s := { s with current_index := 0 }
    let p := s.files_in_folder.getD s.current_index dfltPath
    match s.current_path with
    | some cp =>
      if is_archive_file cp then load_cbz_image p s else load_image p s
    | none => s

/-- The `End` key handler of `handle_keyboard_input`
(`main.rs` lines 740-754): jump to the last entry. -/
def jump_last (_env : Env) (s : RState) : RState :=
  if s.files_in_folder.isEmpty then s
  else
    let s := { s with current_index := s.files_in_folder.length - 1 }
    let p := s.files_in_folder.getD s.current_index dfltPath
    match s.current_path with
    | some cp =>
      if is_archive_file cp then load_cbz_image p s else load_image p s
    | none => s

/-- The `Delete` key handler of `handle_keyboard_input`
(`main.rs` lines 719-722): capture the current entry for deletion. -/
def request_delete (s : RState) : RState :=
  if s.files_in_folder.isEmpty then s
  else { s with show_delete_confirmation := true,
                pending_delete_path :=
                  some (s.files_in_folder.getD s.current_index dfltPath) }

/-- `MangaReader::delete_current_file` (`main.rs` lines 551-592).  The
second component is the error message when the function returns `Err`
(the failed `fs::remove_file`; removal success is `env.removeOk`); on
error nothing has been mutated, so the state is returned untouched. -/
def delete_current_file (env : Env) (s : RState) : RState × Option String :=
  if s.is_in_archive then
    (set_status "Cannot delete files inside archives" 3 s, none)
  else if s.files_in_folder.isEmpty then (s, none)
  else
    let file_to_delete := s.files_in_folder.getD s.current_index dfltPath
    if env.removeOk file_to_delete then
      let s := set_status ("Deleted: " ++ file_to_delete.fileName) 3 s
      let files := s.files_in_folder.eraseIdx s.current_index
      let s := { s with files_in_folder := files }
      if files.isEmpty then
        (set_status "No more images in directory" 3 { s with current_image := none }, none)
      else
        let idx := if s.current_index ≥ files.length then files.length - 1
                   else s.current_index
        ({ s with current_index := idx,
                  current_image := some (files.getD idx dfltPath) }, none)
    else
      (s, some ("Failed to delete file: " ++ file_to_delete.lossy))

/-- The `Yes, Delete` handler of the confirmation window
(`main.rs` lines 809-815): run the deletion, surface an error as a status
notice, and clear the pending-deletion state. -/
def confirm_delete (env : Env) (s : RState) : RState :=
  let r := delete_current_file env s
  let s := match r.2 with
    | some m => set_status ("Error deleting file: " ++ m) 5 r.1
    | none => r.1
  { s with show_delete_confirmation := false, pending_delete_path := none }

/-- The cursor-bounds invariant of the spec's data model. -/
def NavInv (s : RState) : Prop :=
  s.files_in_folder ≠ [] → s.current_index < s.files_in_folder.length

/-! ## Concrete inputs used by witnesses and counterexamples -/

/-- The `MangaReader::default()` state (`main.rs` lines 112-139),
restricted to the modelled fields. -/
def default_state : RState :=
  { current_image := none
    current_path := none
    files_in_folder := []
    current_index := 0
    zoom := 1
    offset_x := 0
    offset_y := 0
    status_message := none
    archive_files := []
    current_archive_index := 0
    show_last_image_alert := false
    is_in_archive := false
    show_delete_confirmation := false
    pending_delete_path := none }

/-- Archive path for the C9 counterexample. -/
def arcC9 : RPath := ⟨["d", "vol.cbz"]⟩

/-- Environment for the C9 counterexample: one archive holding the
entries `b/a1.png` and `a/z2.png` in subdirectories. -/
def envC9 : Env :=
  { isDir := fun _ => false
    dirEntries := fun _ => []
    archiveEntries := fun p => if p = arcC9 then ["b/a1.png", "a/z2.png"] else []
    removeOk := fun _ => true }

/-- An environment with no directories, no entries and no archives. -/
def envTrivial : Env :=
  { isDir := fun _ => false
    dirEntries := fun _ => []
    archiveEntries := fun _ => []
    removeOk := fun _ => true }

/-- First image of the two-image directory used by C1. -/
def pA : RPath := ⟨["d", "a.png"]⟩

/-- Second image of the two-image directory used by C1. -/
def pB : RPath := ⟨["d", "b.png"]⟩

/-- Directory-mode state at the last index of a two-image Collection. -/
def sC1 : RState :=
  { default_state with
    current_path := some pB
    current_image := some pB
    files_in_folder := [pA, pB]
    current_index := 1 }

/-- First archive of the C2 witness directory. -/
def arc1 : RPath := ⟨["d", "vol1.cbz"]⟩

/-- Second archive of the C2 witness directory. -/
def arc2 : RPath := ⟨["d", "vol2.cbz"]⟩

/-- Environment for the C2 witness: `vol1.cbz` holds two images,
`vol2.cbz` holds one. -/
def envC2 : Env :=
  { isDir := fun _ => false
    dirEntries := fun _ => []
    archiveEntries := fun p =>
      if p = arc1 then ["p1.png", "p2.png"]
      else if p = arc2 then ["q1.png"] else []
    removeOk := fun _ => true }

/-- Archive-mode state at the last image of `vol1.cbz`, alert pending. -/
def sC2 : RState :=
  { default_state with
    current_path := some arc1
    current_image := some (pathOfEntryName "p2.png")
    files_in_folder := [pathOfEntryName "p1.png", pathOfEntryName "p2.png"]
    current_index := 1
    archive_files := [arc1, arc2]
    current_archive_index := 0
    is_in_archive := true
    show_last_image_alert := true }

/-- The directory of the C5 counterexample. -/
def dirD : RPath := ⟨["d"]⟩

/-- Environment for C5: directory `d` holding the images `a.png` and
`b.png`. -/
def envC5 : Env :=
  { isDir := fun p => p = dirD
    dirEntries := fun p =>
      if p = dirD then [⟨pA, true, 0⟩, ⟨pB, true, 0⟩] else []
    archiveEntries := fun _ => []
    removeOk := fun _ => true }

/-- A state with a pending deletion, about to open a loose image. -/
def sC5 : RState :=
  { default_state with
    show_delete_confirmation := true
    pending_delete_path := some pA }

/-- Environment for the C7 witness: every removal fails. -/
def envC7 : Env :=
  { isDir := fun _ => false
    dirEntries := fun _ => []
    archiveEntries := fun _ => []
    removeOk := fun _ => false }

/-- Environment for the C6 witness: every removal succeeds. -/
def envC6 : Env :=
  { isDir := fun _ => false
    dirEntries := fun _ => []
    archiveEntries := fun _ => []
    removeOk := fun _ => true }

/-! ## Comparator lemmas -/

theorem foldCode_of_digit {n : Nat} (h : isDig n = true) : foldCode n = n := by
  simp only [isDig, Bool.and_eq_true, decide_eq_true_eq] at h
  simp only [foldCode, Bool.and_eq_true, decide_eq_true_eq]
  rw [if_neg]
  omega

theorem isDig_foldCode {n : Nat} (h : isDig n = false) :
    isDig (foldCode n) = false := by
  simp only [isDig, Bool.and_eq_true, decide_eq_true_eq, Bool.and_eq_false_iff,
    decide_eq_false_iff_not, not_le] at h ⊢
  simp only [foldCode, Bool.and_eq_true, decide_eq_true_eq]
  split <;> omega

theorem pairCmp_eq_iff {x y : Nat × Nat} : pairCmp x y = .eq ↔ x = y := by
  rcases x with ⟨x1, x2⟩
  rcases y with ⟨y1, y2⟩
  simp only [pairCmp, Prod.mk.injEq]
  rcases h : compare x1 y1 with _ | _ | _ <;>
    simp_all [Nat.compare_eq_lt, Nat.compare_eq_eq, Nat.compare_eq_gt] <;> omega

theorem pairCmp_swap (x y : Nat × Nat) : pairCmp y x = (pairCmp x y).swap := by
  rcases x with ⟨x1, x2⟩
  rcases y with ⟨y1, y2⟩
  rcases h : compare x1 y1 with _ | _ | _
  · have h1 := Nat.compare_eq_lt.1 h
    simp only [pairCmp, h, Nat.compare_eq_gt.2 h1]
    rfl
  · obtain rfl := Nat.compare_eq_eq.1 h
    simp only [pairCmp, h]
    rw [← Nat.compare_swap]
  · have h1 := Nat.compare_eq_gt.1 h
    simp only [pairCmp, h, Nat.compare_eq_lt.2 h1]
    rfl

theorem pairCmp_lt_iff {x y : Nat × Nat} :
    pairCmp x y = .lt ↔ x.1 < y.1 ∨ (x.1 = y.1 ∧ x.2 < y.2) := by
  rcases x with ⟨x1, x2⟩
  rcases y with ⟨y1, y2⟩
  simp only [pairCmp]
  rcases h : compare x1 y1 with _ | _ | _ <;>
    simp_all [Nat.compare_eq_lt, Nat.compare_eq_eq, Nat.compare_eq_gt] <;> omega

theorem pairCmp_lt_trans {x y z : Nat × Nat} (h1 : pairCmp x y = .lt)
    (h2 : pairCmp y z = .lt) : pairCmp x z = .lt := by
  rw [pairCmp_lt_iff] at h1 h2 ⊢
  omega

theorem numKey_cmp (m n : Nat) :
    pairCmp (tokKey (.num m)) (tokKey (.num n)) = compare m n := rfl

theorem chrKey_cmp (m n : Nat) :
    pairCmp (tokKey (.chr m)) (tokKey (.chr n)) = compare m n := by
  simp only [tokKey]
  by_cases hm : m < 48 <;> by_cases hn : n < 48
  · rw [if_pos hm, if_pos hn]; rfl
  · rw [if_pos hm, if_neg hn,
      show compare m n = Ordering.lt from Nat.compare_eq_lt.2 (by omega)]
    rfl
  · rw [if_neg hm, if_pos hn,
      show compare m n = Ordering.gt from Nat.compare_eq_gt.2 (by omega)]
    rfl
  · rw [if_neg hm, if_neg hn]; rfl

theorem digit_bounds {n : Nat} (h : isDig n = true) : 48 ≤ n ∧ n ≤ 57 := by
  simpa [isDig] using h

theorem not_digit_bounds {n : Nat} (h : isDig n = false) : n < 48 ∨ 57 < n := by
  simp only [isDig, Bool.and_eq_false_iff, decide_eq_false_iff_not, not_le] at h
  omega

theorem numChrKey_cmp {m f : Nat} (hm : isDig m = true) (hf : isDig f = false) (x : Nat) :
    pairCmp (tokKey (.num x)) (tokKey (.chr f)) = compare m f := by
  have hm := digit_bounds hm
  have hf := not_digit_bounds hf
  simp only [tokKey]
  by_cases h : f < 48
  · rw [if_pos h,
      show compare m f = Ordering.gt from Nat.compare_eq_gt.2 (by omega)]
    rfl
  · rw [if_neg h,
      show compare m f = Ordering.lt from Nat.compare_eq_lt.2 (by omega)]
    rfl

theorem keyCmp_cons (t u : NTok) (ts us : List NTok) :
    keyCmp (t :: ts) (u :: us) =
      match pairCmp (tokKey t) (tokKey u) with
      | .eq => keyCmp ts us
      | ord => ord := rfl

theorem keyCmp_refl : ∀ l : List NTok, keyCmp l l = .eq := by
  intro l
  induction l with
  | nil => rfl
  | cons t ts ih => rw [keyCmp_cons, pairCmp_eq_iff.2 rfl, ih]

theorem keyCmp_swap : ∀ l m : List NTok, keyCmp m l = (keyCmp l m).swap := by
  intro l
  induction l with
  | nil => intro m; cases m <;> rfl
  | cons t ts ih =>
    intro m
    cases m with
    | nil => rfl
    | cons u us =>
      rw [keyCmp_cons, keyCmp_cons, pairCmp_swap]
      rcases h : pairCmp (tokKey t) (tokKey u) with _ | _ | _ <;>
        simp [Ordering.swap, ih us]

theorem keyCmp_eq_left : ∀ l m k : List NTok, keyCmp l m = .eq →
    keyCmp m k = keyCmp l k := by
  intro l
  induction l with
  | nil =>
    intro m k h
    cases m with
    | nil => rfl
    | cons u us => simp [keyCmp] at h
  | cons t ts ih =>
    intro m k h
    cases m with
    | nil => simp [keyCmp] at h
    | cons u us =>
      rw [keyCmp_cons] at h
      rcases hp : pairCmp (tokKey t) (tokKey u) with _ | _ | _ <;> rw [hp] at h
      · exact absurd h (by simp)
      · have hk := pairCmp_eq_iff.1 hp
        cases k with
        | nil => rfl
        | cons v vs => rw [keyCmp_cons, keyCmp_cons, hk, ih us vs h]
      · exact absurd h (by simp)

theorem keyCmp_lt_trans : ∀ l m k : List NTok, keyCmp l m = .lt →
    keyCmp m k = .lt → keyCmp l k = .lt := by
  intro l
  induction l with
  | nil =>
    intro m k h1 h2
    cases m with
    | nil => exact h2
    | cons u us =>
      cases k with
      | nil => simp [keyCmp] at h2
      | cons v vs => rfl
  | cons t ts ih =>
    intro m k h1 h2
    cases m with
    | nil => simp [keyCmp] at h1
    | cons u us =>
      cases k with
      | nil => simp [keyCmp] at h2
      | cons v vs =>
        rw [keyCmp_cons] at h1 h2 ⊢
        rcases hp1 : pairCmp (tokKey t) (tokKey u) with _ | _ | _ <;>
          rw [hp1] at h1 <;>
          rcases hp2 : pairCmp (tokKey u) (tokKey v) with _ | _ | _ <;>
            rw [hp2] at h2 <;> try simp_all
        · rw [pairCmp_lt_trans hp1 hp2]
        · rw [← pairCmp_eq_iff.1 hp2, hp1]
        · rw [pairCmp_eq_iff.1 hp1, hp2]
        · rw [pairCmp_eq_iff.1 hp1, hp2]
          exact ih us vs h1 h2

theorem keyCmp_eq_trans {l m k : List NTok} (h1 : keyCmp l m = .eq)
    (h2 : keyCmp m k = .eq) : keyCmp l k = .eq := by
  rw [← keyCmp_eq_left l m k h1]
  exact h2

theorem length_dropWhile_le' (p : α → Bool) :
    ∀ l : List α, (l.dropWhile p).length ≤ l.length := by
  intro l
  induction l with
  | nil => simp
  | cons x xs ih =>
    rw [List.dropWhile_cons]
    split
    · exact Nat.le_succ_of_le ih
    · simp

theorem tokenize_nil : tokenize [] = [] := by simp [tokenize]

theorem tokenize_cons_digit {c : Char} {cs : List Char} (h : isDig c.toNat = true) :
    tokenize (c :: cs) =
      .num (parseU64 ((c :: cs).takeWhile fun d => isDig d.toNat)) ::
        tokenize ((c :: cs).dropWhile fun d => isDig d.toNat) := by
  rw [tokenize, dif_pos h]

theorem tokenize_cons_nondigit {c : Char} {cs : List Char} (h : isDig c.toNat = false) :
    tokenize (c :: cs) = .chr (foldCode c.toNat) :: tokenize cs := by
  rw [tokenize, dif_neg (by simp [h])]

theorem natSortGo_eq_keyCmp : ∀ (fuel : Nat) (a b : List Char),
    a.length + b.length < fuel →
    natSortGo fuel a b = keyCmp (tokenize a) (tokenize b) := by
  intro fuel
  induction fuel with
  | zero => intro a b h; omega
  | succ f ih =>
    intro a b h
    match a, b with
    | [], [] => rw [tokenize_nil]; rfl
    | [], c :: cs =>
      rcases hd : isDig c.toNat with _ | _
      · rw [tokenize_nil, tokenize_cons_nondigit hd]; rfl
      · rw [tokenize_nil, tokenize_cons_digit hd]; rfl
    | c :: cs, [] =>
      rcases hd : isDig c.toNat with _ | _
      · rw [tokenize_nil, tokenize_cons_nondigit hd]; rfl
      · rw [tokenize_nil, tokenize_cons_digit hd]; rfl
    | a1 :: as, b1 :: bs =>
      simp only [List.length_cons] at h
      by_cases hda : isDig a1.toNat = true
      · by_cases hdb : isDig b1.toNat = true
        · rw [tokenize_cons_digit hda, tokenize_cons_digit hdb, keyCmp_cons, numKey_cmp]
          simp only [natSortGo]
          rw [if_pos (by rw [hda, hdb]; rfl)]
          rcases hc : compare
              (parseU64 ((a1 :: as).takeWhile fun d => isDig d.toNat))
              (parseU64 ((b1 :: bs).takeWhile fun d => isDig d.toNat))
            with _ | _ | _
          · rfl
          · have la : ((a1 :: as).dropWhile fun d => isDig d.toNat).length ≤ as.length := by
              rw [List.dropWhile_cons, if_pos hda]
              exact length_dropWhile_le' _ as
            have lb : ((b1 :: bs).dropWhile fun d => isDig d.toNat).length ≤ bs.length := by
              rw [List.dropWhile_cons, if_pos hdb]
              exact length_dropWhile_le' _ bs
            exact ih _ _ (by omega)
          · rfl
        · have hdb' : isDig b1.toNat = false := by simpa using hdb
          rw [tokenize_cons_digit hda, tokenize_cons_nondigit hdb', keyCmp_cons,
            numChrKey_cmp (m := a1.toNat) hda (isDig_foldCode hdb')]
          simp only [natSortGo]
          rw [if_neg (by simp [hdb'])]
          rw [foldCode_of_digit hda]
          rcases hc : compare a1.toNat (foldCode b1.toNat) with _ | _ | _
          · rfl
          · have h1 := Nat.compare_eq_eq.1 hc
            have h2 := digit_bounds hda
            have h3 := not_digit_bounds (isDig_foldCode hdb')
            omega
          · rfl
      · have hda' : isDig a1.toNat = false := by simpa using hda
        by_cases hdb : isDig b1.toNat = true
        · rw [tokenize_cons_nondigit hda', tokenize_cons_digit hdb, keyCmp_cons]
          have key : pairCmp (tokKey (.chr (foldCode a1.toNat)))
              (tokKey (.num (parseU64 ((b1 :: bs).takeWhile fun d => isDig d.toNat)))) =
              compare (foldCode a1.toNat) b1.toNat := by
            rw [pairCmp_swap, numChrKey_cmp (m := b1.toNat) hdb (isDig_foldCode hda'),
              ← Nat.compare_swap, Ordering.swap_swap]
          rw [key]
          simp only [natSortGo]
          rw [if_neg (by simp [hda'])]
          rw [foldCode_of_digit hdb]
          rcases hc : compare (foldCode a1.toNat) b1.toNat with _ | _ | _
          · rfl
          · have h1 := Nat.compare_eq_eq.1 hc
            have h2 := digit_bounds hdb
            have h3 := not_digit_bounds (isDig_foldCode hda')
            omega
          · rfl
        · have hdb' : isDig b1.toNat = false := by simpa using hdb
          rw [tokenize_cons_nondigit hda', tokenize_cons_nondigit hdb', keyCmp_cons,
            chrKey_cmp]
          simp only [natSortGo]
          rw [if_neg (by simp [hda'])]
          rcases hc : compare (foldCode a1.toNat) (foldCode b1.toNat) with _ | _ | _
          · rfl
          · exact ih _ _ (by omega)
          · rfl

theorem natSortCmp_eq_keyCmp (a b : List Char) :
    natSortCmp a b = keyCmp (tokenize a) (tokenize b) :=
  natSortGo_eq_keyCmp _ a b (by omega)

theorem natural_sort_eq_keyCmp (a b : String) :
    natural_sort a b = keyCmp (tokenize a.data) (tokenize b.data) :=
  natSortCmp_eq_keyCmp a.data b.data

/-- `natural_sort` is reflexive-equal. -/
theorem natural_sort_refl (a : String) : natural_sort a a = .eq := by
  rw [natural_sort_eq_keyCmp]
  exact keyCmp_refl _

/-- `natural_sort` answers on swapped arguments are reversed. -/
theorem natural_sort_swap (a b : String) :
    natural_sort b a = (natural_sort a b).swap := by
  rw [natural_sort_eq_keyCmp, natural_sort_eq_keyCmp]
  exact keyCmp_swap _ _

/-- Strict transitivity of `natural_sort`. -/
theorem natural_sort_lt_trans {a b c : String} (h1 : natural_sort a b = .lt)
    (h2 : natural_sort b c = .lt) : natural_sort a c = .lt := by
  rw [natural_sort_eq_keyCmp] at h1 h2 ⊢
  exact keyCmp_lt_trans _ _ _ h1 h2

/-- Transitivity of `natural_sort` equivalence. -/
theorem natural_sort_eq_trans {a b c : String} (h1 : natural_sort a b = .eq)
    (h2 : natural_sort b c = .eq) : natural_sort a c = .eq := by
  rw [natural_sort_eq_keyCmp] at h1 h2 ⊢
  exact keyCmp_eq_trans h1 h2

theorem takeWhile_run_append {p : α → Bool} :
    ∀ (run rest : List α), (∀ c ∈ run, p c = true) →
      (∀ c, rest.head? = some c → p c = false) →
      (run ++ rest).takeWhile p = run ∧ (run ++ rest).dropWhile p = rest := by
  intro run
  induction run with
  | nil =>
    intro rest hrun hrest
    cases rest with
    | nil => simp
    | cons r rs =>
      have := hrest r (by simp)
      simp [List.takeWhile_cons, List.dropWhile_cons, this]
  | cons x xs ih =>
    intro rest hrun hrest
    have hx : p x = true := hrun x (by simp)
    have h2 := ih rest (fun c hc => hrun c (by simp [hc])) hrest
    simp [List.takeWhile_cons, List.dropWhile_cons, hx, h2.1, h2.2]

theorem tokenize_run {run rest : List Char} (hne : run ≠ [])
    (hd : ∀ c ∈ run, isDig c.toNat = true)
    (hr : ∀ c, rest.head? = some c → isDig c.toNat = false) :
    tokenize (run ++ rest) = .num (parseU64 run) :: tokenize rest := by
  obtain ⟨x, xs, rfl⟩ := List.exists_cons_of_ne_nil hne
  have hx : isDig x.toNat = true := hd x (by simp)
  have hsplit := takeWhile_run_append (p := fun d => isDig d.toNat) (x :: xs) rest
    (by intro c hc; exact hd c hc) hr
  rw [List.cons_append, tokenize_cons_digit hx, ← List.cons_append,
    hsplit.1, hsplit.2]

/-- The digit-run step of `natural_sort`: when both scans stand at the
start of their maximal digit runs, the runs are consumed in full and
compared through `parseU64`; equal parsed values continue with the rests,
unequal parsed values are the final answer. -/
theorem natSortCmp_run (ra rb ta tb : List Char)
    (hra : ra ≠ []) (hrb : rb ≠ [])
    (hda : ∀ c ∈ ra, isDig c.toNat = true) (hdb : ∀ c ∈ rb, isDig c.toNat = true)
    (hta : ∀ c, ta.head? = some c → isDig c.toNat = false)
    (htb : ∀ c, tb.head? = some c → isDig c.toNat = false) :
    natSortCmp (ra ++ ta) (rb ++ tb) =
      match compare (parseU64 ra) (parseU64 rb) with
      | .eq => natSortCmp ta tb
      | ord => ord := by
  rw [natSortCmp_eq_keyCmp, tokenize_run hra hda hta, tokenize_run hrb hdb htb,
    keyCmp_cons, numKey_cmp]
  rcases compare (parseU64 ra) (parseU64 rb) with _ | _ | _
  · rfl
  · exact (natSortCmp_eq_keyCmp ta tb).symm
  · rfl

theorem digitVal_replicate_zero (k : Nat) (s : List Char) :
    digitVal (List.replicate k '0' ++ s) = digitVal s := by
  induction k with
  | zero => rfl
  | succ n ih =>
    rw [List.replicate_succ, List.cons_append]
    exact ih

theorem parseU64_replicate_zero (k : Nat) (s : List Char) :
    parseU64 (List.replicate k '0' ++ s) = parseU64 s := by
  simp [parseU64, digitVal_replicate_zero]

theorem keyCmp_eq_right {l m k : List NTok} (h : keyCmp m k = .eq) :
    keyCmp l k = keyCmp l m := by
  have h1 : keyCmp k l = keyCmp m l := keyCmp_eq_left m k l h
  rw [keyCmp_swap l k, keyCmp_swap l m] at h1
  calc keyCmp l k = (keyCmp l k).swap.swap := by rw [Ordering.swap_swap]
    _ = (keyCmp l m).swap.swap := by rw [h1]
    _ = keyCmp l m := by rw [Ordering.swap_swap]

theorem natural_sort_eq_left {a b : String} (h : natural_sort a b = .eq)
    (c : String) : natural_sort b c = natural_sort a c := by
  rw [natural_sort_eq_keyCmp, natural_sort_eq_keyCmp]
  exact keyCmp_eq_left _ _ _ (by rw [← natural_sort_eq_keyCmp]; exact h)

theorem natural_sort_eq_right {b c : String} (h : natural_sort b c = .eq)
    (a : String) : natural_sort a c = natural_sort a b := by
  rw [natural_sort_eq_keyCmp, natural_sort_eq_keyCmp]
  exact keyCmp_eq_right (by rw [← natural_sort_eq_keyCmp]; exact h)

theorem natural_sort_ne_gt_trans {a b c : String} (h1 : natural_sort a b ≠ .gt)
    (h2 : natural_sort b c ≠ .gt) : natural_sort a c ≠ .gt := by
  rcases ho1 : natural_sort a b with _ | _ | _
  · rcases ho2 : natural_sort b c with _ | _ | _
    · rw [natural_sort_lt_trans ho1 ho2]; simp
    · rw [natural_sort_eq_right ho2 a, ho1]; simp
    · exact absurd ho2 h2
  · rw [← natural_sort_eq_left ho1 c]; exact h2
  · exact absurd ho1 h1

/-! ## Stable sort lemmas -/

theorem mem_insertBy {cmp : α → α → Ordering} {x z : α} :
    ∀ l : List α, z ∈ insertBy cmp x l → z = x ∨ z ∈ l := by
  intro l
  induction l with
  | nil =>
    intro h
    simp only [insertBy, List.mem_singleton] at h
    exact Or.inl h
  | cons y ys ih =>
    intro h
    rw [insertBy] at h
    split at h
    · rcases List.mem_cons.1 h with h | h
      · exact Or.inl h
      · exact Or.inr h
    · rcases List.mem_cons.1 h with h | h
      · exact Or.inr (by simp [h])
      · rcases ih h with h | h
        · exact Or.inl h
        · exact Or.inr (by simp [h])

theorem insertBy_pairwise {cmp : α → α → Ordering}
    (hswap : ∀ a b, cmp b a = (cmp a b).swap)
    (htrans : ∀ a b c, cmp a b ≠ .gt → cmp b c ≠ .gt → cmp a c ≠ .gt)
    (x : α) : ∀ l : List α, l.Pairwise (fun a b => cmp a b ≠ .gt) →
      (insertBy cmp x l).Pairwise (fun a b => cmp a b ≠ .gt) := by
  intro l
  induction l with
  | nil => intro _; simp [insertBy]
  | cons y ys ih =>
    intro hp
    rw [List.pairwise_cons] at hp
    rw [insertBy]
    split
    · rename_i hlt
      rw [List.pairwise_cons]
      refine ⟨?_, List.pairwise_cons.2 hp⟩
      intro z hz
      rcases List.mem_cons.1 hz with rfl | hz
      · rw [hlt]; simp
      · exact htrans x y z (by rw [hlt]; simp) (hp.1 z hz)
    · rename_i hnlt
      rw [List.pairwise_cons]
      refine ⟨?_, ih hp.2⟩
      intro z hz
      rcases mem_insertBy _ hz with rfl | hz
      · rw [hswap z y]
        rcases ho : cmp z y with _ | _ | _
        · exact absurd ho hnlt
        · simp [Ordering.swap]
        · simp [Ordering.swap]
      · exact hp.1 z hz

theorem sortBy_pairwise {cmp : α → α → Ordering}
    (hswap : ∀ a b, cmp b a = (cmp a b).swap)
    (htrans : ∀ a b c, cmp a b ≠ .gt → cmp b c ≠ .gt → cmp a c ≠ .gt)
    (l : List α) : (sortBy cmp l).Pairwise (fun a b => cmp a b ≠ .gt) := by
  have main : ∀ (l acc : List α), acc.Pairwise (fun a b => cmp a b ≠ .gt) →
      (l.foldl (fun acc x => insertBy cmp x acc) acc).Pairwise
        (fun a b => cmp a b ≠ .gt) := by
    intro l
    induction l with
    | nil => intro acc h; exact h
    | cons x xs ih =>
      intro acc h
      exact ih _ (insertBy_pairwise hswap htrans x acc h)
  exact main l [] (by simp)

theorem findIdx?_lt_length {p : α → Bool} :
    ∀ {l : List α} {i : Nat}, l.findIdx? p = some i → i < l.length := by
  intro l
  induction l with
  | nil => intro i h; simp [List.findIdx?] at h
  | cons x xs ih =>
    intro i h
    rw [List.findIdx?_cons] at h
    simp only [List.length_cons]
    split at h
    · simp only [Option.some.injEq] at h
      omega
    · rw [List.findIdx?_succ] at h
      simp only [Option.map_eq_some'] at h
      obtain ⟨j, hj, rfl⟩ := h
      have := ih hj
      omega

/-! ## Claim C3 -/

/-- C3 counterexample: `natural_sort` does not always compare digit runs
by numeric value.  The 20-digit run `99999999999999999999` overflows a
`u64`, so `parse().unwrap_or(0)` turns it into 0 and the comparison
answers `lt` against `"1"`, although the run's numeric value is larger
(numeric comparison would answer `gt`). -/
theorem C3_counterexample :
    natural_sort "99999999999999999999" "1" = .lt ∧
      compare (digitVal "99999999999999999999".data) (digitVal "1".data) = .gt := by
  constructor
  · decide
  · rw [Nat.compare_eq_gt.2 (by decide)]

/-- C3 (amended): when both scan positions hold ASCII digits, the
comparator consumes each side's maximal digit run in full and compares the
runs by their value as parsed by `parse::<u64>().unwrap_or(0)` — the
numeric value whenever it is below `2^64` (so leading zeros never change
it), and the fallback 0 for longer runs; equal parsed values continue the
scan past both runs, unequal parsed values decide the whole comparison
without examining the rests.  In particular `page2` sorts before `page10`
and `page02` compares equal to `page2`. -/
theorem C3_digit_runs :
    (∀ ra rb ta tb : List Char, ra ≠ [] → rb ≠ [] →
      (∀ c ∈ ra, isDig c.toNat = true) → (∀ c ∈ rb, isDig c.toNat = true) →
      (∀ c ∈ ta.head?, isDig c.toNat = false) →
      (∀ c ∈ tb.head?, isDig c.toNat = false) →
      natSortCmp (ra ++ ta) (rb ++ tb) =
        match compare (parseU64 ra) (parseU64 rb) with
        | .eq => natSortCmp ta tb
        | ord => ord) ∧
    (∀ cs : List Char, digitVal cs < 2 ^ 64 → parseU64 cs = digitVal cs) ∧
    (∀ (k : Nat) (cs : List Char),
      parseU64 (List.replicate k '0' ++ cs) = parseU64 cs) ∧
    natural_sort "page2" "page10" = .lt ∧
    natural_sort "page02" "page2" = .eq := by
  refine ⟨?_, ?_, parseU64_replicate_zero, by decide, by decide⟩
  · intro ra rb ta tb hra hrb hda hdb hta htb
    exact natSortCmp_run ra rb ta tb hra hrb hda hdb
      (fun c hc => hta c (by simp [hc])) (fun c hc => htb c (by simp [hc]))
  · intro cs h
    simp only [parseU64]
    rw [if_pos h]

/-- C3 witness: the digit-run equation applied at `"2x"` versus `"10y"`,
and the `parseU64` value of a short run. -/
theorem C3_digit_runs_witness :
    (natSortCmp ("2".data ++ "x".data) ("10".data ++ "y".data) =
      match compare (parseU64 "2".data) (parseU64 "10".data) with
      | .eq => natSortCmp "x".data "y".data
      | ord => ord) ∧
    parseU64 "007".data = digitVal "007".data :=
  ⟨C3_digit_runs.1 "2".data "10".data "x".data "y".data (by decide) (by decide)
      (by decide) (by decide) (by decide) (by decide),
    C3_digit_runs.2.1 "007".data (by decide)⟩

/-! ## Claim C4 -/

/-- C4 counterexample: `natural_sort` is not antisymmetric, hence not a
strict total order on names: the distinct names `page02` and `page2`
compare `Equal`. -/
theorem C4_counterexample :
    natural_sort "page02" "page2" = .eq ∧ "page02" ≠ "page2" := by
  constructor
  · decide
  · decide

/-- C4 (amended): `natural_sort` is a total preorder comparison — it is
reflexive-equal, answers on swapped arguments are exact reverses, and both
the strict relation and the equivalence are transitive; being a pure
function of its two arguments, sorting the same list with it is
deterministic.  It is not antisymmetric: distinct names may compare
`Equal` (see the counterexample), so it is a preorder rather than a strict
total order. -/
theorem C4_preorder :
    (∀ a : String, natural_sort a a = .eq) ∧
    (∀ a b : String, natural_sort b a = (natural_sort a b).swap) ∧
    (∀ a b c : String, natural_sort a b = .lt → natural_sort b c = .lt →
      natural_sort a c = .lt) ∧
    (∀ a b c : String, natural_sort a b = .eq → natural_sort b c = .eq →
      natural_sort a c = .eq) :=
  ⟨natural_sort_refl, natural_sort_swap,
    fun _ _ _ h1 h2 => natural_sort_lt_trans h1 h2,
    fun _ _ _ h1 h2 => natural_sort_eq_trans h1 h2⟩

/-- C4 witness: transitivity applied at `"a1" < "a2" < "a10"`. -/
theorem C4_preorder_witness : natural_sort "a1" "a10" = .lt :=
  C4_preorder.2.2.1 "a1" "a2" "a10" (by decide) (by decide)

/-! ## Claim C9 -/

theorem natural_sort_paths_swap (a b : RPath) :
    natural_sort_paths b a = (natural_sort_paths a b).swap :=
  natural_sort_swap a.fileName b.fileName

theorem natural_sort_paths_ne_gt_trans (a b c : RPath)
    (h1 : natural_sort_paths a b ≠ .gt) (h2 : natural_sort_paths b c ≠ .gt) :
    natural_sort_paths a c ≠ .gt :=
  natural_sort_ne_gt_trans h1 h2

theorem cmpFull_swap (a b : RPath) : cmpFull b a = (cmpFull a b).swap :=
  natural_sort_swap a.lossy b.lossy

theorem cmpFull_ne_gt_trans (a b c : RPath)
    (h1 : cmpFull a b ≠ .gt) (h2 : cmpFull b c ≠ .gt) : cmpFull a c ≠ .gt :=
  natural_sort_ne_gt_trans h1 h2

theorem load_cbz_files (env : Env) (p : RPath) (s : RState) :
    (load_cbz env p s).files_in_folder = cbzList env p := by
  simp only [load_cbz]
  split <;> rfl

/-- C9 counterexample: the in-archive Collection is NOT ordered by bare
file names.  `load_cbz` sorts the entries `b/a1.png`, `a/z2.png` by the
full stored path string, producing `a/z2.png` before `b/a1.png`, although
the bare-name comparison of that adjacent pair is `Greater`
(`z2.png` after `a1.png`). -/
theorem C9_counterexample :
    (load_cbz envC9 arcC9 default_state).files_in_folder =
        [pathOfEntryName "a/z2.png", pathOfEntryName "b/a1.png"] ∧
      natural_sort (pathOfEntryName "a/z2.png").fileName
        (pathOfEntryName "b/a1.png").fileName = .gt := by
  constructor
  · decide
  · decide

/-- C9 (amended): `natural_sort_paths` compares the bare file names, and
the directory Collection and the Archive Chain are ordered by it; the
in-archive Collection, however, is ordered by `natural_sort` of the full
stored entry path string (`to_string_lossy` of the member name), which
disagrees with bare-name order when members sit in subdirectories. -/
theorem C9_sort_keys :
    (∀ a b : RPath, natural_sort_paths a b = natural_sort a.fileName b.fileName) ∧
    (∀ (env : Env) (d : RPath), (dirImages env d).Pairwise
      (fun a b => natural_sort a.fileName b.fileName ≠ .gt)) ∧
    (∀ (env : Env) (d : RPath), (dirArchives env d).Pairwise
      (fun a b => natural_sort a.fileName b.fileName ≠ .gt)) ∧
    (∀ (env : Env) (p : RPath) (s : RState),
      ((load_cbz env p s).files_in_folder).Pairwise
        (fun a b => natural_sort a.lossy b.lossy ≠ .gt)) := by
  refine ⟨fun a b => rfl, ?_, ?_, ?_⟩
  · intro env d
    exact sortBy_pairwise natural_sort_paths_swap natural_sort_paths_ne_gt_trans _
  · intro env d
    exact sortBy_pairwise natural_sort_paths_swap natural_sort_paths_ne_gt_trans _
  · intro env p s
    rw [load_cbz_files]
    exact sortBy_pairwise cmpFull_swap cmpFull_ne_gt_trans _

/-! ## Claim C1 -/

/-- C1 counterexample: in directory mode, `next_image` at the last index
of a length-2 Collection is NOT a no-op — the cursor wraps around to
index 0 (`(i + 1) % len` at `main.rs` line 617), instead of staying at
`N - 1 = 1`. -/
theorem C1_counterexample :
    sC1.is_in_archive = false ∧ sC1.files_in_folder.length = 2 ∧
      sC1.current_index = 1 ∧ (next_image envTrivial sC1).current_index = 0 := by
  refine ⟨rfl, rfl, rfl, ?_⟩
  decide

/-- C1 (amended): in directory mode, `next_image` at the last index
`N - 1` of a non-empty Collection wraps the cursor around to index 0
(which is a no-op only when `N = 1`); the Collection is untouched, no
last-image alert is set, and no notice is emitted (the status message is
unchanged). -/
theorem C1_next_dir_wraps (env : Env) (s : RState)
    (harc : s.is_in_archive = false) (hne : s.files_in_folder ≠ [])
    (hidx : s.current_index = s.files_in_folder.length - 1) :
    (next_image env s).current_index = 0 ∧
    (next_image env s).files_in_folder = s.files_in_folder ∧
    (next_image env s).show_last_image_alert = false ∧
    (next_image env s).status_message = s.status_message := by
  have h0 : s.files_in_folder.isEmpty = false := by
    cases hf : s.files_in_folder <;> simp_all
  have hlen : 0 < s.files_in_folder.length := List.length_pos.2 hne
  have hmod : (s.current_index + 1) % s.files_in_folder.length = 0 := by
    rw [hidx, Nat.sub_add_cancel hlen, Nat.mod_self]
  rw [next_image, if_neg (by simp [h0]), if_neg (by simp [harc])]
  rcases hcp : s.current_path with _ | cp <;>
    simp [hcp, harc, load_image, load_cbz_image, hmod]

/-- C1 witness: the amended statement at the concrete directory state. -/
theorem C1_next_dir_wraps_witness :
    (next_image envTrivial sC1).current_index = 0 ∧
    (next_image envTrivial sC1).files_in_folder = sC1.files_in_folder ∧
    (next_image envTrivial sC1).show_last_image_alert = false ∧
    (next_image envTrivial sC1).status_message = sC1.status_message :=
  C1_next_dir_wraps envTrivial sC1 rfl (by decide) rfl

/-! ## Claim C2 -/

theorem load_cbz_spec (env : Env) (p : RPath) (s : RState)
    (h : cbzList env p ≠ []) :
    load_cbz env p s =
      set_status ("Loaded archive with " ++ toString (cbzList env p).length
          ++ " images") 3
        { s with files_in_folder := cbzList env p, current_index := 0,
                 current_image := some ((cbzList env p).getD 0 dfltPath) } := by
  rw [load_cbz]
  rw [if_neg (by simp [h, List.isEmpty_iff])]
  rfl

theorem load_next_archive_some (env : Env) (s : RState)
    (h : s.current_archive_index + 1 < s.archive_files.length) :
    load_next_archive env s =
      (set_status ("Loaded next archive: "
          ++ (s.archive_files.getD (s.current_archive_index + 1) dfltPath).fileName) 3
        (load_cbz env (s.archive_files.getD (s.current_archive_index + 1) dfltPath)
          { s with
            current_archive_index := s.current_archive_index + 1,
            current_path :=
              some (s.archive_files.getD (s.current_archive_index + 1) dfltPath) }),
        true) := by
  have hch : s.archive_files.isEmpty = false := by
    cases hf : s.archive_files <;> simp_all
  rw [load_next_archive, if_neg (by simp [hch]), if_pos h]

theorem load_next_archive_none (env : Env) (s : RState)
    (hch : s.archive_files.isEmpty = false)
    (h : ¬ s.current_archive_index + 1 < s.archive_files.length) :
    load_next_archive env s = (set_status "No more archives to load" 3 s, false) := by
  rw [load_next_archive, if_neg (by simp [hch]), if_neg h]

/-- C2 (confirmed): archive mode with the cursor at the last index of a
non-empty Collection (the hypothesis `current_archive_index <
archive_files.length` holds in every reachable archive state, where the
chain lists the sibling archives of the open one).  First `next_image`
with no alert pending: the alert is set, the notice is emitted, and
nothing else — cursor and Collection included — changes.  Second call
with the alert pending: the alert is cleared and, when an archive follows
in the chain and it contains images, it is opened with the cursor reset
to index 0 of its Collection; when no archive follows, the
`No more archives to load` notice is emitted and nothing else changes. -/
theorem C2_archive_last_next (env : Env) (s : RState)
    (harc : s.is_in_archive = true) (hne : s.files_in_folder ≠ [])
    (hidx : s.current_index = s.files_in_folder.length - 1)
    (hcai : s.current_archive_index < s.archive_files.length) :
    (s.show_last_image_alert = false →
      next_image env s =
        set_status "Reaching last image. Scroll again to load next archive." 3
          { s with show_last_image_alert := true }) ∧
    (s.show_last_image_alert = true →
      s.current_archive_index + 1 < s.archive_files.length →
      cbzList env (s.archive_files.getD (s.current_archive_index + 1) dfltPath) ≠ [] →
      (next_image env s).show_last_image_alert = false ∧
      (next_image env s).current_archive_index = s.current_archive_index + 1 ∧
      (next_image env s).current_path =
        some (s.archive_files.getD (s.current_archive_index + 1) dfltPath) ∧
      (next_image env s).files_in_folder =
        cbzList env (s.archive_files.getD (s.current_archive_index + 1) dfltPath) ∧
      (next_image env s).current_index = 0) ∧
    (s.show_last_image_alert = true →
      ¬ s.current_archive_index + 1 < s.archive_files.length →
      next_image env s =
        set_status "No more archives to load" 3
          { s with show_last_image_alert := false }) := by
  have h0 : s.files_in_folder.isEmpty = false := by
    cases hf : s.files_in_folder <;> simp_all
  have hch : s.archive_files.isEmpty = false := by
    cases hf : s.archive_files <;> simp_all
  rw [next_image, if_neg (by simp [h0]), if_pos (by simp [harc, hidx])]
  refine ⟨?_, ?_, ?_⟩
  · intro hal
    rw [if_neg (by simp [hal])]
  · intro hal hnext hcbz
    rw [if_pos (by simp [hal])]
    rw [load_next_archive_some env _ (by simpa using hnext)]
    rw [load_cbz_spec env _ _ (by simpa using hcbz)]
    simp [set_status]
  · intro hal hlast
    rw [if_pos (by simp [hal])]
    rw [load_next_archive_none env _ (by simpa using hch) (by simpa using hlast)]

/-- C2 witness: the alert-pending advance applied at the concrete
two-archive state. -/
theorem C2_archive_last_next_witness :
    (next_image envC2 sC2).show_last_image_alert = false ∧
    (next_image envC2 sC2).current_archive_index =
      sC2.current_archive_index + 1 ∧
    (next_image envC2 sC2).current_path =
      some (sC2.archive_files.getD (sC2.current_archive_index + 1) dfltPath) ∧
    (next_image envC2 sC2).files_in_folder =
      cbzList envC2 (sC2.archive_files.getD (sC2.current_archive_index + 1) dfltPath) ∧
    (next_image envC2 sC2).current_index = 0 :=
  (C2_archive_last_next envC2 sC2 rfl (by decide) rfl (by decide)).2.1
    rfl (by decide) (by decide)

/-! ## Claim C5 -/

theorem open_file_dir_empty (env : Env) (p : RPath) (s : RState)
    (hdir : env.isDir p = true) (hemp : dirImages env p = []) :
    open_file env p s =
      set_status ("No images found in directory: " ++ p.lossy) 3
        { s with current_path := some p, zoom := 1, offset_x := 0, offset_y := 0,
                 show_last_image_alert := false, is_in_archive := false,
                 files_in_folder := dirImages env p } := by
  rw [open_file, if_pos hdir]
  dsimp only
  split
  · rfl
  · rename_i hne
    exact absurd (by simp [hemp]) hne

theorem open_file_dir (env : Env) (p : RPath) (s : RState)
    (hdir : env.isDir p = true) (hne : dirImages env p ≠ []) :
    open_file env p s =
      set_status ("Opened directory: " ++ p.lossy) 3
        { s with current_path := some p, zoom := 1, offset_x := 0, offset_y := 0,
                 show_last_image_alert := false, is_in_archive := false,
                 files_in_folder := dirImages env p, current_index := 0,
                 current_image := some ((dirImages env p).getD 0 dfltPath) } := by
  rw [open_file, if_pos hdir]
  dsimp only
  split
  · rename_i hemp
    exact absurd (List.isEmpty_iff.1 hemp) hne
  · rfl

theorem open_file_archive (env : Env) (p : RPath) (s : RState) (par : RPath)
    (hdir : env.isDir p = false) (har : is_archive_file p = true)
    (hpar : p.parent = some par) :
    open_file env p s =
      set_status ("Opened archive: " ++ p.lossy) 3
        (load_cbz env p
          { s with current_path := some p, zoom := 1, offset_x := 0, offset_y := 0,
                   show_last_image_alert := false, is_in_archive := true,
                   archive_files := dirArchives env par,
                   current_archive_index :=
                     ((dirArchives env par).findIdx? (fun q => q = p)).getD 0 }) := by
  rw [open_file, if_neg (by simp [hdir]), if_pos har, hpar]

theorem open_file_archive_root (env : Env) (p : RPath) (s : RState)
    (hdir : env.isDir p = false) (har : is_archive_file p = true)
    (hpar : p.parent = none) :
    open_file env p s =
      set_status ("Opened archive: " ++ p.lossy) 3
        (load_cbz env p
          { s with current_path := some p, zoom := 1, offset_x := 0, offset_y := 0,
                   show_last_image_alert := false, is_in_archive := true }) := by
  rw [open_file, if_neg (by simp [hdir]), if_pos har, hpar]

theorem open_file_loose (env : Env) (p : RPath) (s : RState) (par : RPath)
    (hdir : env.isDir p = false) (har : is_archive_file p = false)
    (hpar : p.parent = some par) :
    open_file env p s =
      { set_status ("Opened image: " ++ p.lossy) 3
          { s with current_path := some p, zoom := 1, offset_x := 0, offset_y := 0,
                   show_last_image_alert := false, is_in_archive := false,
                   current_image := some p } with
        files_in_folder := dirImages env par,
        current_index := ((dirImages env par).findIdx? (fun q => q = p)).getD 0 } := by
  rw [open_file, if_neg (by simp [hdir]), if_neg (by simp [har]), hpar]
  rfl

theorem open_file_loose_root (env : Env) (p : RPath) (s : RState)
    (hdir : env.isDir p = false) (har : is_archive_file p = false)
    (hpar : p.parent = none) :
    open_file env p s =
      set_status ("Opened image: " ++ p.lossy) 3
        { s with current_path := some p, zoom := 1, offset_x := 0, offset_y := 0,
                 show_last_image_alert := false, is_in_archive := false,
                 current_image := some p } := by
  rw [open_file, if_neg (by simp [hdir]), if_neg (by simp [har]), hpar]
  rfl

/-- C5 counterexample: opening the loose image `d/b.png` — an accepted
source — leaves the cursor at the image's position 1 in its directory
listing (not 0), and does not clear the pending-deletion state. -/
theorem C5_counterexample :
    envC5.isDir pB = false ∧ is_archive_file pB = false ∧
      (open_file envC5 pB sC5).current_index = 1 ∧
      (open_file envC5 pB sC5).show_delete_confirmation = true ∧
      (open_file envC5 pB sC5).pending_delete_path = some pA := by
  refine ⟨by decide, by decide, by decide, by decide, by decide⟩

/-- C5 (amended): after `open_file`, zoom is 1, the pan offsets are 0 and
the last-image alert is cleared, in every branch; the pending-deletion
state (confirmation flag and captured entry) is left unchanged, not
cleared; the cursor is reset to 0 when the source is a directory or an
archive whose resulting Collection is non-empty, while for a loose image
the cursor becomes the image's position in its parent-directory
listing. -/
theorem C5_open_resets (env : Env) (p : RPath) (s : RState) :
    (open_file env p s).zoom = 1 ∧
    (open_file env p s).offset_x = 0 ∧
    (open_file env p s).offset_y = 0 ∧
    (open_file env p s).show_last_image_alert = false ∧
    (open_file env p s).show_delete_confirmation = s.show_delete_confirmation ∧
    (open_file env p s).pending_delete_path = s.pending_delete_path ∧
    (env.isDir p = true → dirImages env p ≠ [] →
      (open_file env p s).current_index = 0) ∧
    (env.isDir p = false → is_archive_file p = true → cbzList env p ≠ [] →
      (open_file env p s).current_index = 0) ∧
    (env.isDir p = false → is_archive_file p = false →
      ∀ (par : RPath) (i : Nat), p.parent = some par →
        (dirImages env par).findIdx? (fun q => q = p) = some i →
        (open_file env p s).current_index = i) := by
  by_cases hdir : env.isDir p = true
  · by_cases hemp : dirImages env p = []
    · rw [open_file_dir_empty env p s hdir hemp]
      refine ⟨rfl, rfl, rfl, rfl, rfl, rfl, ?_, ?_, ?_⟩
      · intro _ hne
        exact absurd hemp hne
      · intro h
        rw [hdir] at h
        exact absurd h (by simp)
      · intro h
        rw [hdir] at h
        exact absurd h (by simp)
    · rw [open_file_dir env p s hdir hemp]
      refine ⟨rfl, rfl, rfl, rfl, rfl, rfl, fun _ _ => rfl, ?_, ?_⟩
      · intro h
        rw [hdir] at h
        exact absurd h (by simp)
      · intro h
        rw [hdir] at h
        exact absurd h (by simp)
  · have hdir' : env.isDir p = false := by
      cases hd : env.isDir p
      · rfl
      · exact absurd hd hdir
    by_cases har : is_archive_file p = true
    · rcases hpar : p.parent with _ | par
      · rw [open_file_archive_root env p s hdir' har hpar]
        by_cases hcbz : cbzList env p = []
        · refine ⟨?_, ?_, ?_, ?_, ?_, ?_, ?_, ?_, ?_⟩ <;>
            simp [load_cbz, set_status, hcbz, har, hdir']
        · rw [load_cbz_spec env p _ hcbz]
          refine ⟨rfl, rfl, rfl, rfl, rfl, rfl, ?_, fun _ _ _ => rfl, ?_⟩
          · intro h
            rw [hdir'] at h
            exact absurd h (by simp)
          · intro _ h
            rw [har] at h
            exact absurd h (by simp)
      · rw [open_file_archive env p s par hdir' har hpar]
        by_cases hcbz : cbzList env p = []
        · refine ⟨?_, ?_, ?_, ?_, ?_, ?_, ?_, ?_, ?_⟩ <;>
            simp [load_cbz, set_status, hcbz, har, hdir']
        · rw [load_cbz_spec env p _ hcbz]
          refine ⟨rfl, rfl, rfl, rfl, rfl, rfl, ?_, fun _ _ _ => rfl, ?_⟩
          · intro h
            rw [hdir'] at h
            exact absurd h (by simp)
          · intro _ h
            rw [har] at h
            exact absurd h (by simp)
    · have har' : is_archive_file p = false := by
        cases ha : is_archive_file p
        · rfl
        · exact absurd ha har
      rcases hpar : p.parent with _ | par
      · rw [open_file_loose_root env p s hdir' har' hpar]
        refine ⟨rfl, rfl, rfl, rfl, rfl, rfl, ?_, ?_, ?_⟩
        · intro h
          rw [hdir'] at h
          exact absurd h (by simp)
        · intro _ h
          rw [har'] at h
          exact absurd h (by simp)
        · intro _ _ par i hp
          exact absurd hp (by simp)
      · rw [open_file_loose env p s par hdir' har' hpar]
        refine ⟨rfl, rfl, rfl, rfl, rfl, rfl, ?_, ?_, ?_⟩
        · intro h
          rw [hdir'] at h
          exact absurd h (by simp)
        · intro _ h
          rw [har'] at h
          exact absurd h (by simp)
        · intro _ _ par2 i hp hfind
          injection hp with hp
          subst hp
          simp only [set_status]
          rw [hfind]
          rfl

/-- C5 witness: the amended statement applied at the loose-image
counterexample input, where the cursor lands on position 1. -/
theorem C5_open_resets_witness :
    (open_file envC5 pB sC5).current_index = 1 ∧
    (open_file envC5 pB sC5).zoom = 1 ∧
    (open_file envC5 pB sC5).pending_delete_path = sC5.pending_delete_path :=
  ⟨(C5_open_resets envC5 pB sC5).2.2.2.2.2.2.2.2 (by decide) (by decide)
      dirD 1 (by decide) (by decide),
    (C5_open_resets envC5 pB sC5).1,
    (C5_open_resets envC5 pB sC5).2.2.2.2.2.1⟩

/-! ## Claims C6, C7, C8 -/

/-- C8 (confirmed): `delete_current_file` in archive mode performs no
deletion and no state mutation beyond emitting the
`Cannot delete files inside archives` message, and returns without error
(the error component is `none`): the Collection, cursor and Archive Chain
fields of the result are those of the input state. -/
theorem C8_archive_delete (env : Env) (s : RState) (h : s.is_in_archive = true) :
    delete_current_file env s =
      (set_status "Cannot delete files inside archives" 3 s, none) := by
  rw [delete_current_file, if_pos h]

/-- C8 witness: archive-mode deletion at the concrete archive state. -/
theorem C8_archive_delete_witness :
    delete_current_file envC2 sC2 =
      (set_status "Cannot delete files inside archives" 3 sC2, none) :=
  C8_archive_delete envC2 sC2 rfl

/-- C7 (confirmed): when the filesystem removal fails in directory mode,
`delete_current_file` returns the `Failed to delete file` error and the
state completely unchanged — no entry is removed, the cursor and current
entry stay as they were. -/
theorem C7_delete_failure (env : Env) (s : RState)
    (harc : s.is_in_archive = false) (hne : s.files_in_folder ≠ [])
    (hrm : env.removeOk (s.files_in_folder.getD s.current_index dfltPath) = false) :
    delete_current_file env s =
      (s, some ("Failed to delete file: "
        ++ (s.files_in_folder.getD s.current_index dfltPath).lossy)) := by
  rw [delete_current_file, if_neg (by simp [harc]),
    if_neg (by simp [List.isEmpty_iff, hne])]
  dsimp only
  rw [if_neg (by rw [hrm]; simp)]

/-- C7 witness: the failing removal applied at the concrete directory
state `sC1`. -/
theorem C7_delete_failure_witness :
    delete_current_file envC7 sC1 =
      (sC1, some ("Failed to delete file: "
        ++ (sC1.files_in_folder.getD sC1.current_index dfltPath).lossy)) :=
  C7_delete_failure envC7 sC1 rfl (by decide) rfl

/-- C6 (confirmed): successful directory-mode deletion removes exactly
the entry at the current index (`eraseIdx`, so the length drops by one
and all other entries keep their relative order), returns no error,
clamps the cursor to `min(old index, new length - 1)` and loads that
entry when the Collection stays non-empty, and clears the displayed
image and reports `No more images in directory` when it becomes
empty. -/
theorem C6_delete_success (env : Env) (s : RState)
    (harc : s.is_in_archive = false) (hne : s.files_in_folder ≠ [])
    (hidx : s.current_index < s.files_in_folder.length)
    (hrm : env.removeOk (s.files_in_folder.getD s.current_index dfltPath) = true) :
    (delete_current_file env s).2 = none ∧
    (delete_current_file env s).1.files_in_folder =
      s.files_in_folder.eraseIdx s.current_index ∧
    (s.files_in_folder.eraseIdx s.current_index).length =
      s.files_in_folder.length - 1 ∧
    (s.files_in_folder.eraseIdx s.current_index ≠ [] →
      (delete_current_file env s).1.current_index =
        min s.current_index
          ((s.files_in_folder.eraseIdx s.current_index).length - 1) ∧
      (delete_current_file env s).1.current_image =
        some ((s.files_in_folder.eraseIdx s.current_index).getD
          (min s.current_index
            ((s.files_in_folder.eraseIdx s.current_index).length - 1)) dfltPath)) ∧
    (s.files_in_folder.eraseIdx s.current_index = [] →
      (delete_current_file env s).1.current_image = none ∧
      (delete_current_file env s).1.status_message =
        some ("No more images in directory", 3)) := by
  have hlen : (s.files_in_folder.eraseIdx s.current_index).length =
      s.files_in_folder.length - 1 := by
    rw [List.length_eraseIdx, if_pos hidx]
  rw [delete_current_file, if_neg (by simp [harc]),
    if_neg (by simp [List.isEmpty_iff, hne])]
  dsimp only
  rw [if_pos (by rw [hrm])]
  dsimp only [set_status]
  by_cases hemp : s.files_in_folder.eraseIdx s.current_index = []
  · rw [if_pos (by simp [List.isEmpty_iff, hemp])]
    refine ⟨rfl, rfl, hlen, fun h => absurd hemp h, fun _ => ⟨rfl, rfl⟩⟩
  · rw [if_neg (by simp [List.isEmpty_iff, hemp])]
    have hpos : 0 < (s.files_in_folder.eraseIdx s.current_index).length :=
      List.length_pos.2 hemp
    have hclamp :
        (if (s.files_in_folder.eraseIdx s.current_index).length ≤ s.current_index
          then (s.files_in_folder.eraseIdx s.current_index).length - 1
          else s.current_index) =
        min s.current_index
          ((s.files_in_folder.eraseIdx s.current_index).length - 1) := by
      split <;> omega
    refine ⟨rfl, rfl, hlen, fun _ => ?_, fun h => absurd h hemp⟩
    constructor
    · show (if (s.files_in_folder.eraseIdx s.current_index).length ≤ s.current_index
          then (s.files_in_folder.eraseIdx s.current_index).length - 1
          else s.current_index) = _
      exact hclamp
    · show some ((s.files_in_folder.eraseIdx s.current_index).getD
          (if (s.files_in_folder.eraseIdx s.current_index).length ≤ s.current_index
            then (s.files_in_folder.eraseIdx s.current_index).length - 1
            else s.current_index) dfltPath) = _
      rw [hclamp]

/-- C6 witness: deleting the last of two images clamps the cursor from 1
to 0 and loads the remaining image. -/
theorem C6_delete_success_witness :
    (delete_current_file envC6 sC1).2 = none ∧
    (delete_current_file envC6 sC1).1.files_in_folder =
      sC1.files_in_folder.eraseIdx sC1.current_index ∧
    (sC1.files_in_folder.eraseIdx sC1.current_index).length =
      sC1.files_in_folder.length - 1 ∧
    (sC1.files_in_folder.eraseIdx sC1.current_index ≠ [] →
      (delete_current_file envC6 sC1).1.current_index =
        min sC1.current_index
          ((sC1.files_in_folder.eraseIdx sC1.current_index).length - 1) ∧
      (delete_current_file envC6 sC1).1.current_image =
        some ((sC1.files_in_folder.eraseIdx sC1.current_index).getD
          (min sC1.current_index
            ((sC1.files_in_folder.eraseIdx sC1.current_index).length - 1))
          dfltPath)) ∧
    (sC1.files_in_folder.eraseIdx sC1.current_index = [] →
      (delete_current_file envC6 sC1).1.current_image = none ∧
      (delete_current_file envC6 sC1).1.status_message =
        some ("No more images in directory", 3)) :=
  C6_delete_success envC6 sC1 rfl (by decide) (by decide) rfl

/-! ## Claim C10 -/

theorem navInv_load_cbz (env : Env) (p : RPath) (s : RState) :
    NavInv (load_cbz env p s) := by
  rw [load_cbz]
  dsimp only
  split
  · rename_i hemp
    intro h
    exact absurd (List.isEmpty_iff.1 hemp) (by simpa [set_status] using h)
  · intro h
    show 0 < (cbzList env p).length
    rename_i hne
    exact List.length_pos.2 (by simpa [List.isEmpty_iff] using hne)

theorem navInv_open (env : Env) (p : RPath) (s : RState) (hinv : NavInv s) :
    NavInv (open_file env p s) := by
  by_cases hdir : env.isDir p = true
  · by_cases hemp : dirImages env p = []
    · rw [open_file_dir_empty env p s hdir hemp]
      intro h
      exact absurd hemp (by simpa [set_status] using h)
    · rw [open_file_dir env p s hdir hemp]
      intro h
      show 0 < (dirImages env p).length
      exact List.length_pos.2 hemp
  · have hdir' : env.isDir p = false := by
      cases hd : env.isDir p
      · rfl
      · exact absurd hd hdir
    by_cases har : is_archive_file p = true
    · rcases hpar : p.parent with _ | par
      · rw [open_file_archive_root env p s hdir' har hpar]
        exact navInv_load_cbz env p _
      · rw [open_file_archive env p s par hdir' har hpar]
        exact navInv_load_cbz env p _
    · have har' : is_archive_file p = false := by
        cases ha : is_archive_file p
        · rfl
        · exact absurd ha har
      rcases hpar : p.parent with _ | par
      · rw [open_file_loose_root env p s hdir' har' hpar]
        exact hinv
      · rw [open_file_loose env p s par hdir' har' hpar]
        intro h
        have h' : dirImages env par ≠ [] := by simpa [set_status] using h
        show ((dirImages env par).findIdx? (fun q => q = p)).getD 0 <
          (dirImages env par).length
        rcases hf : (dirImages env par).findIdx? (fun q => q = p) with _ | i
        · exact List.length_pos.2 h'
        · exact findIdx?_lt_length hf

theorem navInv_next (env : Env) (s : RState) (hinv : NavInv s) :
    NavInv (next_image env s) := by
  rw [next_image]
  by_cases hemp : s.files_in_folder.isEmpty = true
  · rw [if_pos hemp]
    exact hinv
  · rw [if_neg hemp]
    by_cases hlast : (s.is_in_archive &&
        decide (s.current_index = s.files_in_folder.length - 1)) = true
    · rw [if_pos hlast]
      by_cases hal : s.show_last_image_alert = true
      · rw [if_pos hal]
        by_cases hch : ({ s with show_last_image_alert := false }
            : RState).archive_files.isEmpty = true
        · rw [load_next_archive, if_pos hch]
          exact hinv
        · by_cases hni : s.current_archive_index + 1 < s.archive_files.length
          · rw [load_next_archive_some env _ (by simpa using hni)]
            exact navInv_load_cbz env _ _
          · rw [load_next_archive_none env _ (by simpa using hch)
              (by simpa using hni)]
            exact hinv
      · rw [if_neg hal]
        exact hinv
    · rw [if_neg hlast]
      dsimp only
      have hlen : 0 < s.files_in_folder.length :=
        List.length_pos.2 (by simpa [List.isEmpty_iff] using hemp)
      have hmod : (s.current_index + 1) % s.files_in_folder.length <
          s.files_in_folder.length := Nat.mod_lt _ hlen
      rcases hcp : s.current_path with _ | cp
      · intro _
        exact hmod
      · dsimp only
        split
        · intro _
          exact hmod
        · intro _
          exact hmod

theorem navInv_previous (env : Env) (s : RState) (hinv : NavInv s) :
    NavInv (previous_image env s) := by
  rw [previous_image]
  by_cases hemp : s.files_in_folder.isEmpty = true
  · rw [if_pos hemp]
    exact hinv
  · rw [if_neg hemp]
    dsimp only
    have hne : s.files_in_folder ≠ [] := by simpa [List.isEmpty_iff] using hemp
    have hlen : 0 < s.files_in_folder.length := List.length_pos.2 hne
    have hidx : (if s.current_index = 0 then s.files_in_folder.length - 1
        else s.current_index - 1) < s.files_in_folder.length := by
      have := hinv hne
      split <;> omega
    rcases hcp : s.current_path with _ | cp
    · intro _
      exact hidx
    · dsimp only
      split
      · intro _
        exact hidx
      · intro _
        exact hidx

theorem navInv_jump_first (env : Env) (s : RState) (hinv : NavInv s) :
    NavInv (jump_first env s) := by
  rw [jump_first]
  by_cases hemp : s.files_in_folder.isEmpty = true
  · rw [if_pos hemp]
    exact hinv
  · rw [if_neg hemp]
    dsimp only
    have hlen : 0 < s.files_in_folder.length :=
      List.length_pos.2 (by simpa [List.isEmpty_iff] using hemp)
    rcases hcp : s.current_path with _ | cp
    · intro _
      exact hlen
    · dsimp only
      split
      · intro _
        exact hlen
      · intro _
        exact hlen

theorem navInv_jump_last (env : Env) (s : RState) (hinv : NavInv s) :
    NavInv (jump_last env s) := by
  rw [jump_last]
  by_cases hemp : s.files_in_folder.isEmpty = true
  · rw [if_pos hemp]
    exact hinv
  · rw [if_neg hemp]
    dsimp only
    have hlen : 0 < s.files_in_folder.length :=
      List.length_pos.2 (by simpa [List.isEmpty_iff] using hemp)
    have hidx : s.files_in_folder.length - 1 < s.files_in_folder.length := by
      omega
    rcases hcp : s.current_path with _ | cp
    · intro _
      exact hidx
    · dsimp only
      split
      · intro _
        exact hidx
      · intro _
        exact hidx

theorem navInv_delete (env : Env) (s : RState) (hinv : NavInv s) :
    NavInv (delete_current_file env s).1 := by
  rw [delete_current_file]
  by_cases harc : s.is_in_archive = true
  · rw [if_pos harc]
    exact hinv
  · rw [if_neg harc]
    by_cases hemp : s.files_in_folder.isEmpty = true
    · rw [if_pos hemp]
      exact hinv
    · rw [if_neg hemp]
      dsimp only
      split
      · dsimp only [set_status]
        split
        · intro h
          rename_i hemp2
          exact absurd (List.isEmpty_iff.1 hemp2) h
        · rename_i hne2
          intro _
          have hpos : 0 < (s.files_in_folder.eraseIdx s.current_index).length :=
            List.length_pos.2 (by simpa [List.isEmpty_iff] using hne2)
          show (if (s.files_in_folder.eraseIdx s.current_index).length ≤
                s.current_index
              then (s.files_in_folder.eraseIdx s.current_index).length - 1
              else s.current_index) <
            (s.files_in_folder.eraseIdx s.current_index).length
          split <;> omega
      · exact hinv

/-- C10 (confirmed): every modelled operation — open, next, previous,
jump-to-first, jump-to-last and delete — preserves the cursor-bounds
invariant `files_in_folder ≠ [] → current_index < files_in_folder.length`
(with `current_index : Nat`, so `0 ≤ index` holds by type). -/
theorem C10_cursor_bounds (env : Env) (p : RPath) (s : RState)
    (hinv : NavInv s) :
    NavInv (open_file env p s) ∧ NavInv (next_image env s) ∧
    NavInv (previous_image env s) ∧ NavInv (jump_first env s) ∧
    NavInv (jump_last env s) ∧ NavInv (delete_current_file env s).1 :=
  ⟨navInv_open env p s hinv, navInv_next env s hinv,
    navInv_previous env s hinv, navInv_jump_first env s hinv,
    navInv_jump_last env s hinv, navInv_delete env s hinv⟩

/-- C10 witness: the invariant transported through the operations at the
concrete two-image directory state. -/
theorem C10_cursor_bounds_witness :
    NavInv (open_file envC5 pB sC1) ∧ NavInv (next_image envC5 sC1) ∧
    NavInv (previous_image envC5 sC1) ∧ NavInv (jump_first envC5 sC1) ∧
    NavInv (jump_last envC5 sC1) ∧ NavInv (delete_current_file envC5 sC1).1 :=
  C10_cursor_bounds envC5 pB sC1 (fun _ => by decide)
